import Mathlib

/-!
Verification of the ontograph sparse-matrix ontology graph engine.

This file gives a shallow embedding of the query layer of the repository:
the object-graph ("pronto") backend and the sparse-matrix ("graphblas")
backend of the navigator, relations and introspection classes, together
with the lookup tables and the adjacency-matrix builder, and proves or
refutes the specified properties about them.

Modelling conventions:
* Python exceptions are modelled with `Except PyErr`.
* A sparse Boolean vector of length `n` is modelled by its set of stored
  indices, kept as an ascending `List Nat` (the order `to_coo` returns).
* Python `while` loops are modelled by fuel-based recursion.  Where the
  loop provably performs at most `n` productive iterations (a visited set
  over `n` nodes grows strictly each round) the fuel is fixed to a bound
  that the loop can never exhaust, so the model computes the exact value
  of the Python loop; otherwise the fuel is an explicit argument.
-/

namespace Ontograph

/-- A parsed ontology term as the graph engine sees it: a string id and a
display label (`term.name` in the source). -/
structure PTerm where
  id : String
  name : String
deriving DecidableEq, Repr

/-- Python exception kinds raised by the embedded code. -/
inductive PyErr where
  | keyError
  | indexError
  | typeError
  | valueError
  | attributeError
deriving DecidableEq, Repr

instance {ε α : Type} [DecidableEq ε] [DecidableEq α] :
    DecidableEq (Except ε α) := fun x y =>
  match x, y with
  | .ok a, .ok b =>
    if h : a = b then isTrue (congrArg Except.ok h)
    else isFalse (fun he => h (Except.ok.inj he))
  | .error a, .error b =>
    if h : a = b then isTrue (congrArg Except.error h)
    else isFalse (fun he => h (Except.error.inj he))
  | .ok _, .error _ => isFalse (fun he => Except.noConfusion he)
  | .error _, .ok _ => isFalse (fun he => Except.noConfusion he)

/-- Lookup of a key in a Python dict built as
`{term.id: idx for idx, term in enumerate(terms)}`: the LAST binding of a
duplicated key wins.  Returns the index of the last occurrence of `t`. -/
def dictIndexOf : List String → String → Option Nat
  | [], _ => none
  | s :: rest, t =>
    match dictIndexOf rest t with
    | some j => some (j + 1)
    | none => if s = t then some 0 else none

/-- Object-graph view of a loaded ontology, as the pronto collaborator
exposes it to the query layer: the list of (non-obsolete) terms, and for
each term id the ids of its direct proper superclasses
(`term.superclasses(distance=1, with_self=False)`) and direct proper
subclasses (`term.subclasses(distance=1, with_self=False)`). -/
structure PGraph where
  terms : List PTerm
  sup1 : String → List String
  sub1 : String → List String

/-- `ontology[term_id]`: look the term object up by id; `none` models the
KeyError raised for an unknown id. -/
def pgetTerm (g : PGraph) (term_id : String) : Option PTerm :=
  g.terms.find? (fun t => t.id = term_id)

/-- Layered reachability closure, modelling the pronto collaborator's
`term.superclasses()` / `term.subclasses()` with an optional distance
bound: repeatedly expand the frontier through `next`, recording each node
once, until a round adds nothing or the distance bound is exhausted.
The visited list grows strictly on every recursive call, so for inputs
whose `next` stays inside the term set a fuel of `terms.length + 1`
reaches the fixed point exactly. -/
def pClosure (next : String → List String) :
    Nat → Option Nat → List String → List String → List String
  | 0, _, _, vis => vis
  | fuel + 1, dist, frontier, vis =>
    if dist = some 0 then vis
    else
      let layer := ((frontier.flatMap next).dedup).filter (fun x => x ∉ vis)
      if layer = [] then vis
      else pClosure next fuel (dist.map (· - 1)) layer (vis ++ layer)

namespace NavigatorPronto

/-- `NavigatorPronto.get_parents`: the ids of
`term.superclasses(distance=1, with_self=include_self)`; an unknown id
logs the KeyError and returns `[]`.  With `with_self` set, pronto yields
the term itself ahead of its direct superclasses. -/
def get_parents (g : PGraph) (term_id : String) (include_self : Bool) :
    List String :=
  match pgetTerm g term_id with
  | none => []
  | some _ => if include_self then term_id :: g.sup1 term_id else g.sup1 term_id

/-- `NavigatorPronto.get_ancestors`: the ids of
`term.superclasses(distance, with_self=include_self)`; an unknown id logs
the KeyError and returns `[]`.  Pronto never reports the queried term
itself unless `with_self` is set, which the final filter models. -/
def get_ancestors (g : PGraph) (term_id : String) (distance : Option Nat)
    (include_self : Bool) : List String :=
  match pgetTerm g term_id with
  | none => []
  | some _ =>
    let full := pClosure g.sup1 (g.terms.length + 1) distance [term_id] [term_id]
    if include_self then full else full.filter (fun x => x ≠ term_id)

end NavigatorPronto

namespace RelationsPronto

/-- `RelationsPronto.is_ancestor`: membership of `ancestor_node` in
`get_ancestors(descendant_node, include_self=False)`. -/
def is_ancestor (g : PGraph) (ancestor_node descendant_node : String) : Bool :=
  ancestor_node ∈ NavigatorPronto.get_ancestors g descendant_node none false

/-- `RelationsPronto.is_sibling`: `node_a != node_b and
bool(set(parents(node_a)) & set(parents(node_b)))`. -/
def is_sibling (g : PGraph) (node_a node_b : String) : Bool :=
  let parentsA := (NavigatorPronto.get_parents g node_a false).toFinset
  let parentsB := (NavigatorPronto.get_parents g node_b false).toFinset
  decide (node_a ≠ node_b) && decide (parentsA ∩ parentsB ≠ ∅)

/-- `RelationsPronto.get_common_ancestors`: collect
`set(get_ancestors(id, include_self=True))` for every id and return
`set.intersection(*ancestor_sets)`; an empty input returns the empty
set before any ancestor lookup. -/
def get_common_ancestors (g : PGraph) (node_ids : List String) :
    Finset String :=
  match node_ids with
  | [] => ∅
  | i :: rest =>
    rest.foldl
      (fun acc j => acc ∩ (NavigatorPronto.get_ancestors g j none true).toFinset)
      (NavigatorPronto.get_ancestors g i none true).toFinset

/-- Queue-based BFS of `RelationsPronto._get_distance_to_ancestor`: pop
`(term, dist)`, return `dist` on reaching `ancestor`, skip already
visited terms, and enqueue unvisited direct superclasses at `dist + 1`;
an exhausted queue returns infinity (`float('inf')`).  The fuel bounds
the number of loop iterations; it is chosen in the caller so that the
loop can never exhaust it on inputs whose `sup1` stays inside the term
set. -/
def distToAncestorAux (g : PGraph) (ancestor : String) :
    Nat → List (String × Nat) → List String → WithTop Nat
  | 0, _, _ => ⊤
  | _ + 1, [], _ => ⊤
  | fuel + 1, (cid, d) :: queue, visited =>
    if cid = ancestor then (d : WithTop Nat)
    else if cid ∈ visited then distToAncestorAux g ancestor fuel queue visited
    else
      let parents := (g.sup1 cid).filter (fun p => p ∉ visited)
      distToAncestorAux g ancestor fuel
        (queue ++ parents.map (fun p => (p, d + 1))) (visited ++ [cid])

/-- `RelationsPronto._get_distance_to_ancestor`: `get_term` re-raises the
KeyError for an unknown start node; otherwise BFS toward superclasses. -/
def get_distance_to_ancestor (g : PGraph) (node ancestor : String) :
    Except PyErr (WithTop Nat) :=
  match pgetTerm g node with
  | none => .error .keyError
  | some t =>
    .ok (distToAncestorAux g ancestor
      ((g.terms.length + 1) * (g.terms.length + 1) + 1) [(t.id, 0)] [])

/-- `RelationsPronto.get_lowest_common_ancestors`: compute the common
ancestors, stamp each with the maximum of its distances to all input
nodes (`max(...)` of an empty generator raises ValueError, and a
KeyError from `_get_distance_to_ancestor` propagates), then take
`min(distances.values())` — which raises ValueError on an empty dict —
and keep the ancestors achieving it.  The set iteration order is
modelled as sorted; the resulting set does not depend on it. -/
def get_lowest_common_ancestors (g : PGraph) (node_ids : List String) :
    Except PyErr (Finset String) :=
  let ca := get_common_ancestors g node_ids
  let ancList := ca.sort (· ≤ ·)
  match ancList.mapM (fun anc =>
      (node_ids.mapM (fun nid => get_distance_to_ancestor g nid anc)).bind
        (fun ds =>
          match ds.max? with
          | some m => Except.ok (anc, m)
          | none => Except.error PyErr.valueError)) with
  | .error e => .error e
  | .ok dists =>
    match (dists.map (fun p => p.2)).min? with
    | none => .error .valueError
    | some mn => .ok ((dists.filter (fun p => p.2 = mn)).map (fun p => p.1)).toFinset

end RelationsPronto

/-- One entry of the path returned by `get_path_between`: a dict with
keys `id` and `distance`. -/
structure PathNode where
  id : String
  distance : Int
deriving DecidableEq, Repr

/-- One entry of a trajectory: a dict with keys `id`, `name` and
`distance`. -/
structure TrajNode where
  id : String
  name : String
  distance : Int
deriving DecidableEq, Repr

namespace IntrospectionPronto

/-- Queue-based BFS of `IntrospectionPronto.get_path_between`: pop
`(term, dist, path)`, skip visited terms, extend the path, return it on
reaching `end`, and enqueue unvisited direct subclasses at
`dist + step`; an exhausted queue returns `[]`.  Pronto's
`subclasses(distance=1)` also yields the term itself, which the
just-updated visited set filters out — modelled by filtering
`cid :: visited` over proper subclasses. -/
def pathBFSAux (g : PGraph) (endId : String) (step : Int) :
    Nat → List (String × Int × List PathNode) → List String → List PathNode
  | 0, _, _ => []
  | _ + 1, [], _ => []
  | fuel + 1, (cid, d, path) :: queue, visited =>
    if cid ∈ visited then pathBFSAux g endId step fuel queue visited
    else
      let newPath := path ++ [⟨cid, d⟩]
      if cid = endId then newPath
      else
        let children := (g.sub1 cid).filter (fun c => ¬ (c ∈ cid :: visited))
        pathBFSAux g endId step fuel
          (queue ++ children.map (fun c => (c, d + step, newPath))) (visited ++ [cid])

/-- BFS walk of `get_path_between` from `start`: `get_term(start)` logs
and returns `[]` on a KeyError, else search downward for `endId`. -/
def pathWalk (g : PGraph) (start endId : String) : List PathNode :=
  match pgetTerm g start with
  | none => []
  | some t =>
    pathBFSAux g endId 1 ((g.terms.length + 1) * (g.terms.length + 1) + 1)
      [(t.id, 0, [])] []

/-- `IntrospectionPronto.get_path_between`: pick the direction by two
`is_ancestor` checks, return the single-element path when
`node_a == node_b`, an empty path when unrelated, and otherwise walk
downward from the ancestor via BFS. -/
def get_path_between (g : PGraph) (node_a node_b : String) : List PathNode :=
  if RelationsPronto.is_ancestor g node_a node_b then pathWalk g node_a node_b
  else if RelationsPronto.is_ancestor g node_b node_a then pathWalk g node_b node_a
  else if node_a = node_b then [⟨node_a, 0⟩]
  else []

/-- The recursive `dfs` inside
`IntrospectionPronto.get_trajectories_from_root`: stop on a visited id,
extend the path with the current term at the current signed distance,
collect the reversed path when the current term has no proper direct
superclass, and otherwise branch into every parent at distance − 1.
The recursion depth is bounded by the number of distinct visited ids, so
the fuel chosen by the caller (`terms.length + 2`) is never exhausted. -/
def dfs (g : PGraph) :
    Nat → PTerm → Int → List TrajNode → List String → List (List TrajNode)
  | 0, _, _, _, _ => []
  | fuel + 1, cur, d, path, visited =>
    if cur.id ∈ visited then []
    else
      let path2 := path ++ [⟨cur.id, cur.name, d⟩]
      let parents :=
        ((g.sup1 cur.id).filterMap (pgetTerm g)).filter (fun p => p.id ≠ cur.id)
      if parents = [] then [path2.reverse]
      else parents.flatMap (fun p => dfs g fuel p (d - 1) path2 (visited ++ [cur.id]))

/-- `IntrospectionPronto.get_trajectories_from_root`: `get_term` raises
KeyError for an unknown id; otherwise run `dfs(term, 0, [], set())`. -/
def get_trajectories_from_root (g : PGraph) (term_id : String) :
    Except PyErr (List (List TrajNode)) :=
  match pgetTerm g term_id with
  | none => .error .keyError
  | some t => .ok (dfs g (g.terms.length + 2) t 0 [] [])

end IntrospectionPronto

/-- `LookUpTables`, built from the filtered term list: a term→index dict
(`{term.id: idx for idx, term in enumerate(terms)}`), an index→term list
(`[term.id for term in terms]`) and a term→name dict. -/
structure LookUpTables where
  terms : List PTerm

namespace LookUpTables

/-- The `__lut_index_to_term` list. -/
def lutIndexToTerm (lut : LookUpTables) : List String :=
  lut.terms.map (fun t => t.id)

/-- `LookUpTables.term_to_index` on a single string: a Python dict access,
raising KeyError when the id is absent. -/
def term_to_index (lut : LookUpTables) (term : String) : Except PyErr Nat :=
  match dictIndexOf lut.lutIndexToTerm term with
  | some i => .ok i
  | none => .error .keyError

/-- `LookUpTables.index_to_term` on a single int: a Python list index.
Indices in `[0, N)` are returned directly; indices in `[-N, 0)` resolve
by Python's negative indexing to `lut[N + i]`; anything else raises
IndexError. -/
def index_to_term (lut : LookUpTables) (index : Int) : Except PyErr String :=
  let l := lut.lutIndexToTerm
  let n : Int := l.length
  if 0 ≤ index ∧ index < n then .ok (l.getD index.toNat "")
  else if -n ≤ index ∧ index < 0 then .ok (l.getD (index + n).toNat "")
  else .error .indexError

/-- `LookUpTables.term_to_description`: a dict access on
`{term.id: term.name}` (last binding wins); KeyError when absent. -/
def term_to_description (lut : LookUpTables) (term : String) :
    Except PyErr String :=
  match (lut.terms.filter (fun t => t.id = term)).getLast? with
  | some t => .ok t.name
  | none => .error .keyError

end LookUpTables

/-- Matrix-backend view of a loaded ontology: the lookup tables (the
filtered term list in index order, `N = lut.length`) and the is-a
adjacency matrix, `isA c p = true` iff the edge lists recorded term `c`
as a direct child of term `p` (`M[child][parent] = True`). -/
structure GbGraph where
  lut : List PTerm
  isA : Nat → Nat → Bool

namespace GbGraph

/-- `number_nodes`: the matrices are `N×N` with `N` the number of
filtered terms, the same list the lookup tables are built from. -/
def n (g : GbGraph) : Nat := g.lut.length

/-- The lookup tables held by the backend objects. -/
def tables (g : GbGraph) : LookUpTables := ⟨g.lut⟩

/-- The keys of `get_lut_term_to_index()`, i.e. the id list. -/
def termIds (g : GbGraph) : List String := g.lut.map (fun t => t.id)

/-- `term_id in get_lut_term_to_index()`. -/
def known (g : GbGraph) (term_id : String) : Bool :=
  (dictIndexOf g.termIds term_id).isSome

/-- `term_to_index` with its result defaulted; callers only use it after
the membership check. -/
def idxOfD (g : GbGraph) (term_id : String) : Nat :=
  (dictIndexOf g.termIds term_id).getD 0

/-- `index_to_term` on a valid index. -/
def idxTerm (g : GbGraph) (i : Nat) : String := g.termIds.getD i ""

/-- The stored indices of the sparse vector `is_a.T @ one_hot(i)`: the
parents of node `i`, i.e. the set bits of row `i` of the is-a matrix,
ascending as `to_coo` reports them. -/
def parentsIdx (g : GbGraph) (i : Nat) : List Nat :=
  (List.range g.n).filter (fun p => g.isA i p)

/-- The stored indices of the sparse vector `is_a @ one_hot(i)`: the
children of node `i`, the set bits of column `i`, ascending. -/
def childrenIdx (g : GbGraph) (i : Nat) : List Nat :=
  (List.range g.n).filter (fun c => g.isA c i)

end GbGraph

namespace NavigatorGraphblas

/-- `NavigatorGraphblas.get_term`: the body is a bare `pass`, so every
call returns `None`, for known and unknown ids alike. -/
def get_term (g : GbGraph) (term_id : String) : Option PTerm :=
  let _ := g
  let _ := term_id
  none

/-- `NavigatorGraphblas.get_parents`: KeyError for an id outside the
lookup table; otherwise the set bits of `is_a.T @ one_hot(index)`,
optionally with the node's own index added, translated back to ids.
Python materialises the index set in unspecified order; the model keeps
the ascending order, and only membership is ever relied on. -/
def get_parents (g : GbGraph) (term_id : String) (include_self : Bool) :
    Except PyErr (List String) :=
  if ¬ g.known term_id then .error .keyError
  else
    let index := g.idxOfD term_id
    let parentIndices :=
      if include_self then
        if index ∈ g.parentsIdx index then g.parentsIdx index
        else g.parentsIdx index ++ [index]
      else g.parentsIdx index
    .ok (parentIndices.map g.idxTerm)

/-- `NavigatorGraphblas.get_children`: KeyError for an unknown id;
otherwise the set bits of `is_a @ one_hot(index)` (with `vec[index]`
additionally set when `include_self`), in the ascending order iteration
over the vector yields, translated back to ids. -/
def get_children (g : GbGraph) (term_id : String) (include_self : Bool) :
    Except PyErr (List String) :=
  if ¬ g.known term_id then .error .keyError
  else
    let index := g.idxOfD term_id
    let bits := (List.range g.n).filter
      (fun c => g.isA c index || (include_self && c = index))
    .ok (bits.map g.idxTerm)

/-- `NavigatorGraphblas.get_root`: reduce the transposed is-a matrix
column-wise, scatter the sums into a dense array, and keep the indices
whose sum is zero — the nodes whose matrix row has no set bit —
translating them to ids in ascending index order (`np.where`). -/
def get_root (g : GbGraph) : List String :=
  (((List.range g.n).filter (fun j => g.parentsIdx j = [])).map g.idxTerm)

/-- The frontier loop of `NavigatorGraphblas._traverse_graph`: while the
current frontier is non-empty and the remaining distance is not zero,
compute the next layer (`adjacency_matrix @ current`, i.e. all nodes
with an `edge`-step from a frontier node), drop already-visited indices,
stop if nothing is new, else record the layer and decrement the
distance.  `edge x c` means the multiplication can step from frontier
node `c` to `x`.  Every non-final round strictly grows `visited ⊆
range n`, so the caller's fuel of `n + 1` is never exhausted and the
model returns exactly the Python loop's fixed point. -/
def traverseAux (g : GbGraph) (edge : Nat → Nat → Bool) :
    Nat → Option Nat → List Nat → List Nat → List Nat
  | 0, _, _, visited => visited
  | fuel + 1, dist, current, visited =>
    if current = [] ∨ dist = some 0 then visited
    else
      let layer := (List.range g.n).filter
        (fun x => (current.any (fun c => edge x c)) && x ∉ visited)
      if layer = [] then visited
      else traverseAux g edge fuel (dist.map (· - 1)) layer (visited ++ layer)

/-- `NavigatorGraphblas._traverse_graph`: KeyError outside the lookup
table, else seed a one-hot frontier (and, with `include_self`, the
visited set) at the term's index and expand; the visited indices are
translated back to ids. -/
def traverse_graph (g : GbGraph) (edge : Nat → Nat → Bool) (term_id : String)
    (distance : Option Nat) (include_self : Bool) : Except PyErr (List String) :=
  if ¬ g.known term_id then .error .keyError
  else
    let index := g.idxOfD term_id
    let visited := if include_self then [index] else []
    .ok ((traverseAux g edge (g.n + 1) distance [index] visited).map g.idxTerm)

/-- `NavigatorGraphblas.get_ancestors`: traverse with the transposed
is-a matrix — one step goes from a child to each of its parents. -/
def get_ancestors (g : GbGraph) (term_id : String) (distance : Option Nat)
    (include_self : Bool) : Except PyErr (List String) :=
  traverse_graph g (fun x c => g.isA c x) term_id distance include_self

/-- `NavigatorGraphblas.get_descendants`: traverse with the untransposed
is-a matrix — one step goes from a parent to each of its children. -/
def get_descendants (g : GbGraph) (term_id : String) (distance : Option Nat)
    (include_self : Bool) : Except PyErr (List String) :=
  traverse_graph g (fun x c => g.isA x c) term_id distance include_self

end NavigatorGraphblas

namespace RelationsGraphblas

/-- `RelationsGraphblas.is_ancestor`: KeyError checks on the descendant
then the ancestor, then membership of the ancestor in the navigator's
`get_ancestors(descendant, include_self=False)`. -/
def is_ancestor (g : GbGraph) (ancestor_node descendant_node : String) :
    Except PyErr Bool :=
  if ¬ g.known descendant_node then .error .keyError
  else if ¬ g.known ancestor_node then .error .keyError
  else
    (NavigatorGraphblas.get_ancestors g descendant_node none false).map
      (fun ancestors => ancestor_node ∈ ancestors)

/-- `RelationsGraphblas.is_descendant`: after the two KeyError checks the
body evaluates `self.get_descendants(...)` — but neither
`RelationsGraphblas` nor its base class defines `get_descendants` (only
the navigator does), so every call raises AttributeError. -/
def is_descendant (g : GbGraph) (descendant_node ancestor_node : String) :
    Except PyErr Bool :=
  if ¬ g.known ancestor_node then .error .keyError
  else if ¬ g.known descendant_node then .error .keyError
  else .error .attributeError

/-- `RelationsGraphblas.is_sibling`: after the two KeyError checks the
body evaluates `self.get_parents(...)` — an attribute that exists only
on the navigator, not on `RelationsGraphblas` or its base class — so
every call with known ids raises AttributeError. -/
def is_sibling (g : GbGraph) (node_a node_b : String) : Except PyErr Bool :=
  if ¬ g.known node_a then .error .keyError
  else if ¬ g.known node_b then .error .keyError
  else .error .attributeError

/-- `RelationsGraphblas.get_common_ancestors`: `if not node_ids: return
[]`; otherwise the body evaluates `self.get_ancestors(node_ids[0], ...)`
— an attribute that exists only on the navigator — so every non-empty
call raises AttributeError. -/
def get_common_ancestors (g : GbGraph) (node_ids : List String) :
    Except PyErr (List String) :=
  let _ := g
  match node_ids with
  | [] => .ok []
  | _ :: _ => .error .attributeError

/-- `RelationsGraphblas.get_lowest_common_ancestors`: `if not node_ids:
return []`; otherwise the body evaluates
`self.get_ancestors_with_distance(node_ids[0], ...)` — an attribute that
exists only on the navigator — so every non-empty call raises
AttributeError. -/
def get_lowest_common_ancestors (g : GbGraph) (node_ids : List String) :
    Except PyErr (List String) :=
  let _ := g
  match node_ids with
  | [] => .ok []
  | _ :: _ => .error .attributeError

end RelationsGraphblas

namespace IntrospectionGraphblas

/-- The BFS loop of `IntrospectionGraphblas.get_path_between`: pop a
path, return it (translated to ids by the caller) when its tail has
reached the target, otherwise extend it through every unvisited set bit
of `adjacency_matrix @ one_hot(tail)` (the node's children, ascending as
`to_coo` yields them).  Every enqueue marks a fresh node visited, so at
most `n + 1` pops ever occur and the caller's fuel of `n + 2` is never
exhausted. -/
def pathBFSAux (g : GbGraph) (endIdx : Nat) :
    Nat → List (List Nat) → List Nat → List Nat
  | 0, _, _ => []
  | _ + 1, [], _ => []
  | fuel + 1, path :: queue, visited =>
    if path.getLastD 0 = endIdx then path
    else
      let ns := (g.childrenIdx (path.getLastD 0)).filter (fun x => x ∉ visited)
      pathBFSAux g endIdx fuel
        (queue ++ ns.map (fun x => path ++ [x])) (visited ++ ns)

/-- `IntrospectionGraphblas.get_path_between`: two KeyError checks; then
`if not (is_ancestor(a, b) or is_descendant(a, b)): return []` — when
`is_ancestor(a, b)` is false, Python's `or` goes on to evaluate
`self.__relations.is_descendant(a, b)`, which raises AttributeError (see
`RelationsGraphblas.is_descendant`).  When `is_ancestor(a, b)` holds the
second check is short-circuited and a BFS walks downward from `a` to
`b`; there is no special case for `node_a == node_b`. -/
def get_path_between (g : GbGraph) (node_a node_b : String) :
    Except PyErr (List String) :=
  if ¬ g.known node_a then .error .keyError
  else if ¬ g.known node_b then .error .keyError
  else
    match RelationsGraphblas.is_ancestor g node_a node_b with
    | .error e => .error e
    | .ok true =>
      let start_idx := g.idxOfD node_a
      let end_idx := g.idxOfD node_b
      .ok ((pathBFSAux g end_idx (g.n + 2) [[start_idx]] [start_idx]).map g.idxTerm)
    | .ok false =>
      match RelationsGraphblas.is_descendant g node_a node_b with
      | .error e => .error e
      | .ok false => .ok []
      | .ok true =>
        let start_idx := g.idxOfD node_b
        let end_idx := g.idxOfD node_a
        .ok ((pathBFSAux g end_idx (g.n + 2) [[start_idx]] [start_idx]).map g.idxTerm)

/-- `root_indices` in `get_trajectories_from_root`:
`{term_to_index(r) for r in set(get_root())}`. -/
def rootIndices (g : GbGraph) : List Nat :=
  (NavigatorGraphblas.get_root g).filterMap (fun r => dictIndexOf g.termIds r)

/-- Building one trajectory from a finished path (which is already in
root-first order, the queried term last).  The source reverses the path
(`reversed(path)`), immediately re-reverses it in the `enumerate` over
`reversed_path[::-1]` — so `dist` counts from the ROOT end — then
appends `list(reversed(traj))` and finally calls `traj.reverse()` on
every collected trajectory, restoring root-first order with the root at
distance 0. -/
def buildTraj (g : GbGraph) (path : List Nat) : List TrajNode :=
  let reversedPath := path.reverse
  let traj := (reversedPath.reverse.enum).map
    (fun p => TrajNode.mk (g.idxTerm p.2)
      (((g.tables).term_to_description (g.idxTerm p.2)).toOption.getD "")
      (p.1 : Int))
  traj.reverse.reverse

/-- The queue loop of `get_trajectories_from_root`: pop a path, find the
parents of its head via `is_a.T @ one_hot(head)`; if there are none, or
the head is a recorded root index, reverse-gymnastics the path into a
trajectory (see `buildTraj`) and collect it; otherwise prepend each
parent not already on the path and re-enqueue.  The number of pops is
bounded by the number of duplicate-free index sequences, so the fuel is
an explicit argument. -/
def trajLoop (g : GbGraph) :
    Nat → List (List Nat) → List (List TrajNode) → List (List TrajNode)
  | 0, _, acc => acc
  | _ + 1, [], acc => acc
  | fuel + 1, path :: queue, acc =>
    let cur := path.headD 0
    let parents := g.parentsIdx cur
    if parents = [] ∨ cur ∈ rootIndices g then
      trajLoop g fuel queue (acc ++ [buildTraj g path])
    else
      trajLoop g fuel
        (queue ++ (parents.filter (fun p => p ∉ path)).map (fun p => p :: path))
        acc

/-- `IntrospectionGraphblas.get_trajectories_from_root`: KeyError for an
unknown id, else run the queue loop seeded with the one-element path at
the term's index. -/
def get_trajectories_from_root (g : GbGraph) (fuel : Nat) (term_id : String) :
    Except PyErr (List (List TrajNode)) :=
  if ¬ g.known term_id then .error .keyError
  else .ok (trajLoop g fuel [[g.idxOfD term_id]] [])

end IntrospectionGraphblas

/-- The sparse Boolean matrix `gb.Matrix.from_coo(rows, columns,
values=1.0, nrows, ncols, dtype=bool)` produces: explicit dimensions,
and an entry is stored (and equal to `True`) exactly when its
coordinate pair occurs in `zip(rows, columns)`. -/
structure GbMatrix where
  nrows : Nat
  ncols : Nat
  entry : Nat → Nat → Bool

namespace Graph

/-- `Graph.create_graphblas_matrix`: `gb.Matrix.from_coo` with the
scalar value `1.0` and `dtype=bool`.  Modelled from the GraphBLAS
collaborator: mismatched coordinate array lengths raise; with a scalar
value the build is SuiteSparse's `GxB_Matrix_build_Scalar`, for which
duplicate coordinates are permitted and all stored entries equal the
scalar — so a duplicated `(row, col)` pair simply stores `True` once. -/
def create_graphblas_matrix (rows_indexes cols_indexes : List Nat)
    (nrows ncols : Nat) : Except PyErr GbMatrix :=
  if rows_indexes.length ≠ cols_indexes.length then .error .valueError
  else
    .ok ⟨nrows, ncols,
      fun i j => decide ((i, j) ∈ rows_indexes.zip cols_indexes)⟩

/-- `Graph.create_multiple_matrices`: compile every relation's
coordinate arrays into its own `N×N` matrix. -/
def create_multiple_matrices (edge_container : List (String × List Nat × List Nat))
    (nrows ncols : Nat) : Except PyErr (List (String × GbMatrix)) :=
  edge_container.mapM (fun rel =>
    (create_graphblas_matrix rel.2.1 rel.2.2 nrows ncols).map
      (fun M => (rel.1, M)))

end Graph

/-- Concrete object-graph ontology for witnesses: `Z` is a root, `A` its
child, `D` and `E` children of `A` (hence siblings), and `W` a second,
disconnected root. -/
def pgEx : PGraph where
  terms := [⟨"Z", "rootZ"⟩, ⟨"A", "termA"⟩, ⟨"D", "termD"⟩, ⟨"E", "termE"⟩,
    ⟨"W", "rootW"⟩]
  sup1 := fun i =>
    if i = "A" then ["Z"] else if i = "D" then ["A"]
    else if i = "E" then ["A"] else []
  sub1 := fun i =>
    if i = "Z" then ["A"] else if i = "A" then ["D", "E"] else []

/-- The same ontology in matrix view: lookup order `[Z, A, D, E, W]`,
is-a entries `(1, 0)` (A is a child of Z), `(2, 1)` and `(3, 1)` (D and
E are children of A). -/
def gbEx : GbGraph where
  lut := [⟨"Z", "rootZ"⟩, ⟨"A", "termA"⟩, ⟨"D", "termD"⟩, ⟨"E", "termE"⟩,
    ⟨"W", "rootW"⟩]
  isA := fun c p => (c = 1 && p = 0) || (c = 2 && p = 1) || (c = 3 && p = 1)

/-- The per-trajectory guarantee the matrix backend actually gives:
the trajectory is non-empty, the node at position `k` is annotated with
distance `k` (the first node carries 0, the queried term — last —
carries `length - 1`), the last node is the queried term, and the first
node is one of the terms `get_root` reports. -/
def gbTrajOk (g : GbGraph) (tid : String) (t : List TrajNode) : Prop :=
  ∃ hne : t ≠ [],
    (∀ k, (hk : k < t.length) → (t.get ⟨k, hk⟩).distance = (k : Int)) ∧
      (t.getLast hne).id = tid ∧
      (t.head hne).id ∈ NavigatorGraphblas.get_root g

/-- The per-trajectory guarantee of the object-graph backend: the
trajectory is non-empty, the node at position `k` carries the signed
distance `k + 1 - length` (the root — first — is most negative and the
queried term — last — carries 0), the last node is the queried term at
distance 0, and the first node has no proper direct superclass among
the parsed terms, i.e. it is a root. -/
def prontoTrajOk (g : PGraph) (tid : String) (t : List TrajNode) : Prop :=
  ∃ hne : t ≠ [],
    (∀ k, (hk : k < t.length) →
        (t.get ⟨k, hk⟩).distance = (k : Int) + 1 - t.length) ∧
      (t.getLast hne).id = tid ∧ (t.getLast hne).distance = 0 ∧
      ((g.sup1 (t.head hne).id).filterMap (pgetTerm g)).filter
        (fun p => p.id ≠ (t.head hne).id) = []

/-- Invariant of the `trajLoop` queue: a candidate path is non-empty,
all of its node indices are below `N`, and its last element — the index
the backward search started from — is the queried term's index. -/
def goodPath (g : GbGraph) (tidIdx : Nat) (path : List Nat) : Prop :=
  path ≠ [] ∧ (∀ i ∈ path, i < g.n) ∧ path.getLastD 0 = tidIdx

/-- A path `trajLoop` collects: a good path whose head satisfied the
loop's termination test (no parents, or a recorded root index). -/
def finishedPath (g : GbGraph) (tidIdx : Nat) (path : List Nat) : Prop :=
  goodPath g tidIdx path ∧
    (g.parentsIdx (path.headD 0) = [] ∨
      path.headD 0 ∈ IntrospectionGraphblas.rootIndices g)

/-! ### Helper lemmas about the lookup dictionaries -/

theorem getD_mem_of_lt (l : List String) (i : Nat) (h : i < l.length) :
    l.getD i "" ∈ l := by
  rw [List.getD_eq_getElem?_getD, List.getElem?_eq_getElem h]
  simp

theorem dictIndexOf_isSome_iff_mem (l : List String) (t : String) :
    (dictIndexOf l t).isSome = true ↔ t ∈ l := by
  induction l with
  | nil => simp [dictIndexOf]
  | cons s rest ih =>
    simp only [dictIndexOf, List.mem_cons]
    cases h : dictIndexOf rest t with
    | some j => simp [← ih, h]
    | none =>
      by_cases hs : s = t
      · simp [hs]
      · simp [hs, ← ih, h]
        exact fun he => (hs he.symm).elim

theorem dictIndexOf_getD (l : List String) (t : String) (i : Nat)
    (h : dictIndexOf l t = some i) : l.getD i "" = t := by
  induction l generalizing i with
  | nil => simp [dictIndexOf] at h
  | cons s rest ih =>
    simp only [dictIndexOf] at h
    cases hr : dictIndexOf rest t with
    | some j =>
      rw [hr] at h
      cases h
      simpa using ih j hr
    | none =>
      rw [hr] at h
      by_cases hs : s = t
      · simp [hs] at h
        subst h
        simpa using hs
      · simp [hs] at h

theorem dictIndexOf_lt_length (l : List String) (t : String) (i : Nat)
    (h : dictIndexOf l t = some i) : i < l.length := by
  induction l generalizing i with
  | nil => simp [dictIndexOf] at h
  | cons s rest ih =>
    simp only [dictIndexOf] at h
    cases hr : dictIndexOf rest t with
    | some j =>
      rw [hr] at h
      cases h
      simpa using Nat.succ_lt_succ (ih j hr)
    | none =>
      rw [hr] at h
      by_cases hs : s = t
      · rw [if_pos hs] at h
        cases h
        simp
      · simp [hs] at h

theorem dictIndexOf_of_nodup (l : List String) (j : Nat) (hj : j < l.length)
    (hnd : l.Nodup) : dictIndexOf l (l.getD j "") = some j := by
  induction l generalizing j with
  | nil => simp at hj
  | cons s rest ih =>
    rcases List.nodup_cons.mp hnd with ⟨hs, hrest⟩
    cases j with
    | zero =>
      simp only [List.getD_cons_zero, dictIndexOf]
      cases hr : dictIndexOf rest s with
      | some k =>
        exfalso
        have hk := dictIndexOf_lt_length rest s k hr
        have := dictIndexOf_getD rest s k hr
        exact hs (this ▸ getD_mem_of_lt rest k hk)
      | none => simp
    | succ m =>
      have hm : m < rest.length := by simpa using hj
      simp only [List.getD_cons_succ, dictIndexOf, ih m hm hrest]

theorem mem_foldl_inter (x : String) (init : Finset String) (l : List String)
    (f : String → Finset String) :
    x ∈ l.foldl (fun acc j => acc ∩ f j) init ↔ x ∈ init ∧ ∀ j ∈ l, x ∈ f j := by
  induction l generalizing init with
  | nil => simp
  | cons a l ih =>
    simp only [List.foldl_cons, ih, Finset.mem_inter, List.mem_cons]
    constructor
    · rintro ⟨⟨h1, h2⟩, h3⟩
      exact ⟨h1, fun j hj => hj.elim (fun he => he ▸ h2) (h3 j)⟩
    · rintro ⟨h1, h2⟩
      exact ⟨⟨h1, h2 a (Or.inl rfl)⟩, fun j hj => h2 j (Or.inr hj)⟩

/-! ### The claims -/

/-- C10: in the matrix backend, `get_term` returns no term object
(`None`) for every input string — ids present in the lookup tables
included — and never raises, even though the shared navigator contract
declares it as retrieving the term object for an id. -/
theorem C10_get_term_none (g : GbGraph) (term_id : String) :
    NavigatorGraphblas.get_term g term_id = none := rfl

/-- C9 as stated is false: on the example lookup tables, `term_of(-1)`
does not fail — Python's negative list indexing returns the last
assigned term id. -/
theorem C9_counterexample :
    LookUpTables.index_to_term (GbGraph.tables gbEx) (-1) = .ok "W" ∧
      (-1 : Int) < 0 := by
  constructor
  · rfl
  · decide

/-- C9 amended: `index_of` fails for every string id not in the table,
and `term_of(index)` fails for every index at or above `N` and below
`-N`; but an index in `[-N, 0)` does not fail — Python's negative list
indexing returns the term id at position `N + index`. -/
theorem C9_amended_lookup_errors (lut : LookUpTables) (t : String) (i : Int)
    (ht : t ∉ lut.lutIndexToTerm) :
    lut.term_to_index t = .error .keyError ∧
      ((i < -(lut.lutIndexToTerm.length : Int) ∨
          (lut.lutIndexToTerm.length : Int) ≤ i) →
        lut.index_to_term i = .error .indexError) ∧
      ((-(lut.lutIndexToTerm.length : Int) ≤ i ∧ i < 0) →
        lut.index_to_term i =
          .ok (lut.lutIndexToTerm.getD (i + lut.lutIndexToTerm.length).toNat "")) := by
  refine ⟨?_, ?_, ?_⟩
  · have : dictIndexOf lut.lutIndexToTerm t = none := by
      cases h : dictIndexOf lut.lutIndexToTerm t with
      | none => rfl
      | some j =>
        exact absurd ((dictIndexOf_isSome_iff_mem _ _).mp (by simp [h])) ht
    simp [LookUpTables.term_to_index, this]
  · intro hi
    have h1 : ¬ (0 ≤ i ∧ i < (lut.lutIndexToTerm.length : Int)) := by omega
    have h2 : ¬ (-(lut.lutIndexToTerm.length : Int) ≤ i ∧ i < 0) := by omega
    simp only [LookUpTables.index_to_term]
    rw [if_neg h1, if_neg h2]
  · intro hi
    have h1 : ¬ (0 ≤ i ∧ i < (lut.lutIndexToTerm.length : Int)) := by omega
    simp only [LookUpTables.index_to_term]
    rw [if_neg h1, if_pos hi]

/-- Witness for C9: on the example tables, the unknown id `Q` fails, the
out-of-range index `5` fails, and the negative index `-1` succeeds and
returns the last term id. -/
theorem C9_witness :
    LookUpTables.term_to_index (GbGraph.tables gbEx) "Q" = .error .keyError ∧
      LookUpTables.index_to_term (GbGraph.tables gbEx) 5 = .error .indexError ∧
      LookUpTables.index_to_term (GbGraph.tables gbEx) (-1) = .ok "W" := by
  have h5 := C9_amended_lookup_errors (GbGraph.tables gbEx) "Q" 5 (by decide)
  have hm1 := C9_amended_lookup_errors (GbGraph.tables gbEx) "Q" (-1) (by decide)
  exact ⟨h5.1, h5.2.1 (by decide), hm1.2.2 (by decide)⟩

/-- C5: compiling a relation's coordinate arrays into the sparse Boolean
adjacency matrix succeeds even when the same `(row, col)` edge appears
more than once: the build does not fail, the duplicated arrays produce
the very same matrix as the originals, and each stored entry is the
single Boolean `true` of edge membership. -/
theorem C5_dup_edges_coalesce (rows cols : List Nat) (n : Nat)
    (h : rows.length = cols.length) :
    ∃ M : GbMatrix,
      Graph.create_graphblas_matrix (rows ++ rows) (cols ++ cols) n n = .ok M ∧
        Graph.create_graphblas_matrix rows cols n n = .ok M ∧
        ∀ i j, M.entry i j = decide ((i, j) ∈ rows.zip cols) := by
  refine ⟨⟨n, n, fun i j => decide ((i, j) ∈ rows.zip cols)⟩, ?_, ?_, fun i j => rfl⟩
  · have hzip : (rows ++ rows).zip (cols ++ cols) = rows.zip cols ++ rows.zip cols :=
      List.zip_append h
    have hfun : (fun i j => decide ((i, j) ∈ (rows ++ rows).zip (cols ++ cols))) =
        (fun i j => decide ((i, j) ∈ rows.zip cols)) := by
      funext i j
      rw [hzip]
      simp [List.mem_append]
    unfold Graph.create_graphblas_matrix
    rw [if_neg (by simp [h]), hfun]
  · simp [Graph.create_graphblas_matrix, h]

/-- Witness for C5: the edge `(0, 1)` listed twice builds, builds the
same matrix as listing it once, and that matrix stores `true` at the
edge. -/
theorem C5_witness :
    Graph.create_graphblas_matrix ([0, 0] ++ [0, 0]) ([1, 1] ++ [1, 1]) 2 2 =
      Graph.create_graphblas_matrix [0, 0] [1, 1] 2 2 ∧
      (Graph.create_graphblas_matrix ([0, 0] ++ [0, 0]) ([1, 1] ++ [1, 1]) 2 2).map
        (fun M => M.entry 0 1) = .ok true := by
  obtain ⟨M, h1, h2, h3⟩ := C5_dup_edges_coalesce [0, 0] [1, 1] 2 rfl
  refine ⟨h1.trans h2.symm, ?_⟩
  rw [h1]
  show Except.ok (M.entry 0 1) = Except.ok true
  rw [h3 0 1]
  decide

/-- C1 as stated is false: on the empty input, the matrix backend's
`get_lowest_common_ancestors` does not raise — it returns a normal,
empty result. -/
theorem C1_counterexample :
    RelationsGraphblas.get_lowest_common_ancestors gbEx [] = .ok [] := rfl

/-- C1 amended: the object-graph backend does fail — whenever
`get_common_ancestors` is empty (in particular on empty input or inputs
with no common ancestor), `get_lowest_common_ancestors` raises the
`EmptyAncestry` error (Python's ValueError from `min` of an empty
sequence).  The matrix backend instead returns a normal empty list on
empty input, and its non-empty calls fail with AttributeError because
the method as written calls the undefined `self.get_ancestors_with_distance`. -/
theorem C1_amended_lca_failure :
    (∀ (g : PGraph) (ids : List String),
        RelationsPronto.get_common_ancestors g ids = ∅ →
          RelationsPronto.get_lowest_common_ancestors g ids = .error .valueError) ∧
      (∀ g : GbGraph, RelationsGraphblas.get_lowest_common_ancestors g [] = .ok []) ∧
      (∀ (g : GbGraph) (i : String) (rest : List String),
        RelationsGraphblas.get_lowest_common_ancestors g (i :: rest) =
          .error .attributeError) := by
  refine ⟨?_, fun g => rfl, fun g i rest => rfl⟩
  intro g ids h
  unfold RelationsPronto.get_lowest_common_ancestors
  rw [h]
  simp [Finset.sort_empty]
  rfl

/-- Witness for C1: two disconnected roots have no common ancestor, so
the object backend raises ValueError on them and on the empty input,
while the matrix backend returns `[]` on the empty input and
AttributeError on the same two roots. -/
theorem C1_witness :
    RelationsPronto.get_common_ancestors pgEx ["Z", "W"] = ∅ ∧
      RelationsPronto.get_lowest_common_ancestors pgEx ["Z", "W"] = .error .valueError ∧
      RelationsPronto.get_lowest_common_ancestors pgEx [] = .error .valueError ∧
      RelationsGraphblas.get_lowest_common_ancestors gbEx [] = .ok [] ∧
      RelationsGraphblas.get_lowest_common_ancestors gbEx ["Z", "W"] =
        .error .attributeError := by
  refine ⟨by decide, ?_, ?_, C1_amended_lca_failure.2.1 gbEx,
    C1_amended_lca_failure.2.2 gbEx "Z" ["W"]⟩
  · exact C1_amended_lca_failure.1 pgEx ["Z", "W"] (by decide)
  · exact C1_amended_lca_failure.1 pgEx [] (by decide)

/-- C2 as stated is false: in the object-graph backend the queried term
itself can be a member of `common_ancestors`, because that backend
intersects `ancestors(id, include_self=True)`: on the example ontology,
`common_ancestors(["A"])` contains `A` even though `A` is not in
`ancestors("A", include_self=False)`. -/
theorem C2_counterexample :
    "A" ∈ RelationsPronto.get_common_ancestors pgEx ["A"] ∧
      "A" ∉ NavigatorPronto.get_ancestors pgEx "A" none false := by
  constructor
  · decide
  · decide

/-- C2 amended: the object-graph backend returns exactly the
intersection over the input ids of `ancestors(id, include_self=True)` —
so a queried term can itself appear in the result — and the empty input
yields the empty set.  The matrix backend also returns an empty result
for the empty input, but its non-empty calls fail with AttributeError
because the method as written calls the undefined `self.get_ancestors`. -/
theorem C2_amended_common_ancestors :
    (∀ (g : PGraph) (ids : List String) (x : String), ids ≠ [] →
        (x ∈ RelationsPronto.get_common_ancestors g ids ↔
          ∀ i ∈ ids, x ∈ NavigatorPronto.get_ancestors g i none true)) ∧
      (∀ g : PGraph, RelationsPronto.get_common_ancestors g [] = ∅) ∧
      (∀ g : GbGraph, RelationsGraphblas.get_common_ancestors g [] = .ok []) ∧
      (∀ (g : GbGraph) (i : String) (rest : List String),
        RelationsGraphblas.get_common_ancestors g (i :: rest) =
          .error .attributeError) := by
  refine ⟨?_, fun g => rfl, fun g => rfl, fun g i rest => rfl⟩
  intro g ids x hne
  match ids with
  | [] => exact absurd rfl hne
  | i :: rest =>
    simp only [RelationsPronto.get_common_ancestors, mem_foldl_inter,
      List.mem_toFinset, List.mem_cons]
    constructor
    · rintro ⟨h1, h2⟩ j hj
      exact hj.elim (fun he => he ▸ h1) (h2 j)
    · intro h
      exact ⟨h i (Or.inl rfl), fun j hj => h j (Or.inr hj)⟩

/-- Witness for C2: on the example ontology, membership of `Z` in
`common_ancestors(["D", "E"])` matches `Z` being an
`include_self=True` ancestor of both, the empty input yields the empty
set, and the two matrix-backend behaviours are exhibited. -/
theorem C2_witness :
    "Z" ∈ RelationsPronto.get_common_ancestors pgEx ["D", "E"] ∧
      RelationsPronto.get_common_ancestors pgEx [] = ∅ ∧
      RelationsGraphblas.get_common_ancestors gbEx [] = .ok [] ∧
      RelationsGraphblas.get_common_ancestors gbEx ["D", "E"] =
        .error .attributeError :=
  ⟨(C2_amended_common_ancestors.1 pgEx ["D", "E"] "Z" (by decide)).mpr (by decide),
    C2_amended_common_ancestors.2.1 pgEx,
    C2_amended_common_ancestors.2.2.1 gbEx,
    C2_amended_common_ancestors.2.2.2 gbEx "D" ["E"]⟩

/-- C3 as stated is false: in the matrix backend, `path_between(a, a)`
does not return the single-element path — on the example ontology it
fails (the existence check falls through to `is_descendant`, which
raises AttributeError as written). -/
theorem C3_counterexample :
    IntrospectionGraphblas.get_path_between gbEx "A" "A" =
      .error .attributeError := rfl

/-- C3 amended: the object-graph backend returns the single-element path
for `path_between(a, a)` (its two `is_ancestor` probes are false because
proper ancestors never include the term itself).  The matrix backend has
no `a == b` case: whenever its `is_ancestor(a, a)` probe is false — as
it always is on acyclic data — the `or` goes on to evaluate
`is_descendant`, which raises AttributeError because the method as
written calls the undefined `self.get_descendants`. -/
theorem C3_amended_path_between_self :
    (∀ (g : PGraph) (a : String),
        IntrospectionPronto.get_path_between g a a = [⟨a, 0⟩]) ∧
      (∀ (g : GbGraph) (a : String), g.known a = true →
        RelationsGraphblas.is_ancestor g a a = .ok false →
        IntrospectionGraphblas.get_path_between g a a = .error .attributeError) := by
  constructor
  · intro g a
    have hanc : RelationsPronto.is_ancestor g a a = false := by
      unfold RelationsPronto.is_ancestor NavigatorPronto.get_ancestors
      cases h : pgetTerm g a with
      | none => simp
      | some t => simp
    simp [IntrospectionPronto.get_path_between, hanc]
  · intro g a hknown hanc
    unfold IntrospectionGraphblas.get_path_between
    rw [if_neg (by simp [hknown]), if_neg (by simp [hknown]), hanc]
    simp [RelationsGraphblas.is_descendant, hknown]

/-- Witness for C3: on the example ontology, `path_between("D", "D")` is
the single-element path in the object backend and AttributeError in the
matrix backend. -/
theorem C3_witness :
    IntrospectionPronto.get_path_between pgEx "D" "D" = [⟨"D", 0⟩] ∧
      IntrospectionGraphblas.get_path_between gbEx "D" "D" =
        .error .attributeError :=
  ⟨C3_amended_path_between_self.1 pgEx "D",
    C3_amended_path_between_self.2 gbEx "D" (by decide) (by decide)⟩

/-- C7: the object-graph backend implements the sibling predicate
exactly as claimed — true iff the nodes are distinct and their parent
sets intersect (so `is_sibling(x, x)` is false) — but the matrix
backend raises AttributeError for every pair of known ids, because the
method as written calls the undefined `self.get_parents`. -/
theorem C7_sibling_behavior :
    (∀ (g : PGraph) (x y : String),
        RelationsPronto.is_sibling g x y = true ↔
          (x ≠ y ∧ ((NavigatorPronto.get_parents g x false).toFinset ∩
            (NavigatorPronto.get_parents g y false).toFinset).Nonempty)) ∧
      (∀ (g : GbGraph) (x y : String), g.known x = true → g.known y = true →
        RelationsGraphblas.is_sibling g x y = .error .attributeError) := by
  constructor
  · intro g x y
    simp [RelationsPronto.is_sibling, ← Finset.nonempty_iff_ne_empty]
  · intro g x y hx hy
    unfold RelationsGraphblas.is_sibling
    rw [if_neg (by simp [hx]), if_neg (by simp [hy])]

/-- Witness for C7: on the example ontology, `D` and `E` share the
parent `A`, so the object backend reports them as siblings and reports
`is_sibling("D", "D")` as false, while the matrix backend raises
AttributeError on the same known pair. -/
theorem C7_witness :
    RelationsPronto.is_sibling pgEx "D" "E" = true ∧
      RelationsPronto.is_sibling pgEx "D" "D" = false ∧
      RelationsGraphblas.is_sibling gbEx "D" "E" = .error .attributeError := by
  refine ⟨(C7_sibling_behavior.1 pgEx "D" "E").mpr ⟨by decide, by decide⟩, ?_, 
    C7_sibling_behavior.2 gbEx "D" "E" (by decide) (by decide)⟩
  have h := C7_sibling_behavior.1 pgEx "D" "D"
  cases hb : RelationsPronto.is_sibling pgEx "D" "D" with
  | false => rfl
  | true => exact absurd ((h.mp hb).1) (by simp)

theorem termIds_length (g : GbGraph) : g.termIds.length = g.n := by
  simp [GbGraph.termIds, GbGraph.n]

theorem known_iff_mem (g : GbGraph) (t : String) :
    g.known t = true ↔ t ∈ g.termIds := by
  simp [GbGraph.known, dictIndexOf_isSome_iff_mem]

theorem exists_idx_of_mem (g : GbGraph) (t : String) (ht : t ∈ g.termIds) :
    ∃ i, dictIndexOf g.termIds t = some i ∧ g.idxOfD t = i ∧ i < g.n ∧
      g.idxTerm i = t := by
  have hsome := (dictIndexOf_isSome_iff_mem g.termIds t).mpr ht
  cases h : dictIndexOf g.termIds t with
  | none => rw [h] at hsome; simp at hsome
  | some i =>
    refine ⟨i, rfl, ?_, ?_, ?_⟩
    · simp [GbGraph.idxOfD, h]
    · have hlt := dictIndexOf_lt_length _ _ _ h
      rwa [termIds_length] at hlt
    · exact dictIndexOf_getD _ _ _ h

theorem mem_parentsIdx (g : GbGraph) (i p : Nat) :
    p ∈ g.parentsIdx i ↔ p < g.n ∧ g.isA i p = true := by
  simp [GbGraph.parentsIdx, List.mem_filter, List.mem_range, and_comm]

theorem mem_map_idxTerm_iff (g : GbGraph) (hnd : g.termIds.Nodup)
    (l : List Nat) (hl : ∀ i ∈ l, i < g.n) (t : String) (it : Nat)
    (hit : dictIndexOf g.termIds t = some it) :
    t ∈ l.map g.idxTerm ↔ it ∈ l := by
  constructor
  · intro hmem
    rcases List.mem_map.mp hmem with ⟨c, hc, hct⟩
    have hcn : c < g.termIds.length := by
      rw [termIds_length]
      exact hl c hc
    have hrt : dictIndexOf g.termIds (g.termIds.getD c "") = some c :=
      dictIndexOf_of_nodup _ c hcn hnd
    rw [show g.termIds.getD c "" = g.idxTerm c from rfl, hct, hit] at hrt
    cases hrt
    exact hc
  · intro hmem
    exact List.mem_map.mpr ⟨it, hmem, dictIndexOf_getD _ _ _ hit⟩

/-- C6: in the matrix backend, for all known term ids `x` and `y`, `y`
is among `children(x, include_self=False)` exactly when `x` is among
`parents(y, include_self=False)` — the parent/child duality of the
shared is-a matrix. -/
theorem C6_parent_child_duality (g : GbGraph) (hnd : g.termIds.Nodup)
    (x y : String) (hx : x ∈ g.termIds) (hy : y ∈ g.termIds) :
    ∃ cs ps, NavigatorGraphblas.get_children g x false = .ok cs ∧
      NavigatorGraphblas.get_parents g y false = .ok ps ∧
      (y ∈ cs ↔ x ∈ ps) := by
  rcases exists_idx_of_mem g x hx with ⟨ix, hix, hixD, hixn, hixt⟩
  rcases exists_idx_of_mem g y hy with ⟨iy, hiy, hiyD, hiyn, hiyt⟩
  have hkx : g.known x = true := (known_iff_mem g x).mpr hx
  have hky : g.known y = true := (known_iff_mem g y).mpr hy
  refine ⟨((List.range g.n).filter (fun c => g.isA c ix)).map g.idxTerm,
    (g.parentsIdx iy).map g.idxTerm, ?_, ?_, ?_⟩
  · unfold NavigatorGraphblas.get_children
    rw [if_neg (by simp [hkx])]
    simp [hixD]
  · unfold NavigatorGraphblas.get_parents
    rw [if_neg (by simp [hky])]
    simp [hiyD]
  · rw [mem_map_idxTerm_iff g hnd _
        (fun i hi => List.mem_range.mp (List.mem_filter.mp hi).1) y iy hiy,
      mem_map_idxTerm_iff g hnd _
        (fun i hi => ((mem_parentsIdx g iy i).mp hi).1) x ix hix,
      List.mem_filter, List.mem_range, mem_parentsIdx]
    constructor
    · rintro ⟨-, h⟩
      exact ⟨hixn, by simpa using h⟩
    · rintro ⟨-, h⟩
      exact ⟨hiyn, by simpa using h⟩

/-- Witness for C6 on the example ontology: `D` is a child of `A` iff
`A` is a parent of `D`. -/
theorem C6_witness :
    NavigatorGraphblas.get_children gbEx "A" false = .ok ["D", "E"] ∧
      NavigatorGraphblas.get_parents gbEx "D" false = .ok ["A"] ∧
      ("D" ∈ ["D", "E"] ↔ "A" ∈ ["A"]) := by
  obtain ⟨cs, ps, h1, h2, h3⟩ :=
    C6_parent_child_duality gbEx (by decide) "A" "D" (by decide) (by decide)
  have hcs : cs = ["D", "E"] := by
    have hc : NavigatorGraphblas.get_children gbEx "A" false = .ok ["D", "E"] := by
      decide
    exact Except.ok.inj (h1.symm.trans hc)
  have hps : ps = ["A"] := by
    have hp : NavigatorGraphblas.get_parents gbEx "D" false = .ok ["A"] := by
      decide
    exact Except.ok.inj (h2.symm.trans hp)
  subst hcs hps
  exact ⟨h1, h2, h3⟩

/-- C8: in the matrix backend, a known term id is in `roots()` exactly
when its `parents(id, include_self=False)` is empty, i.e. exactly when
its row of the is-a matrix has no set bit. -/
theorem C8_root_invariant (g : GbGraph) (hnd : g.termIds.Nodup)
    (id : String) (hid : id ∈ g.termIds) :
    (id ∈ NavigatorGraphblas.get_root g ↔
        NavigatorGraphblas.get_parents g id false = .ok []) ∧
      (NavigatorGraphblas.get_parents g id false = .ok [] ↔
        g.parentsIdx (g.idxOfD id) = []) := by
  rcases exists_idx_of_mem g id hid with ⟨i, hi, hiD, hin, hit⟩
  have hk : g.known id = true := (known_iff_mem g id).mpr hid
  have hparents : NavigatorGraphblas.get_parents g id false =
      .ok ((g.parentsIdx i).map g.idxTerm) := by
    unfold NavigatorGraphblas.get_parents
    rw [if_neg (by simp [hk])]
    simp [hiD]
  have h2 : NavigatorGraphblas.get_parents g id false = .ok [] ↔
      g.parentsIdx i = [] := by
    rw [hparents]
    constructor
    · intro h
      exact List.map_eq_nil_iff.mp (Except.ok.inj h)
    · intro h
      rw [h]
      rfl
  refine ⟨?_, by rw [hiD]; exact h2⟩
  rw [h2]
  unfold NavigatorGraphblas.get_root
  rw [mem_map_idxTerm_iff g hnd _
      (fun j hj => List.mem_range.mp (List.mem_filter.mp hj).1) id i hi,
    List.mem_filter, List.mem_range]
  constructor
  · rintro ⟨-, h⟩
    simpa using h
  · intro h
    exact ⟨hin, by simp [h]⟩

/-- Witness for C8 on the example ontology, at the root `Z`. -/
theorem C8_witness :
    ("Z" ∈ NavigatorGraphblas.get_root gbEx ↔
        NavigatorGraphblas.get_parents gbEx "Z" false = .ok []) ∧
      (NavigatorGraphblas.get_parents gbEx "Z" false = .ok [] ↔
        gbEx.parentsIdx (gbEx.idxOfD "Z") = []) :=
  C8_root_invariant gbEx (by decide) "Z" (by decide)

theorem getLastD_congr {α : Type} (l : List α) (h : l ≠ []) (d₁ d₂ : α) :
    l.getLastD d₁ = l.getLastD d₂ := by
  rw [List.getLastD_eq_getLast? d₁ l, List.getLastD_eq_getLast? d₂ l,
    List.getLast?_eq_getLast l h]
  rfl

theorem getLastD_eq_get {α : Type} (l : List α) (h : l ≠ []) (d : α) :
    l.getLastD d = l.get ⟨l.length - 1, by
      have := List.length_pos.mpr h
      omega⟩ := by
  rw [List.getLastD_eq_getLast? d l, List.getLast?_eq_getLast l h,
    Option.getD_some, List.getLast_eq_get]

theorem headD_eq_get {α : Type} (l : List α) (h : l ≠ []) (d : α) :
    l.headD d = l.get ⟨0, List.length_pos.mpr h⟩ := by
  cases l with
  | nil => exact absurd rfl h
  | cons a t => rfl

theorem headD_mem {α : Type} (l : List α) (h : l ≠ []) (d : α) :
    l.headD d ∈ l := by
  cases l with
  | nil => exact absurd rfl h
  | cons a t => exact List.mem_cons_self a t

theorem headD_append {α : Type} (l₁ l₂ : List α) (h : l₁ ≠ []) (d : α) :
    (l₁ ++ l₂).headD d = l₁.headD d := by
  cases l₁ with
  | nil => exact absurd rfl h
  | cons a t => rfl

theorem buildTraj_eq (g : GbGraph) (path : List Nat) :
    IntrospectionGraphblas.buildTraj g path =
      path.enum.map (fun p => TrajNode.mk (g.idxTerm p.2)
        (((g.tables).term_to_description (g.idxTerm p.2)).toOption.getD "")
        (p.1 : Int)) := by
  unfold IntrospectionGraphblas.buildTraj
  simp

theorem buildTraj_length (g : GbGraph) (path : List Nat) :
    (IntrospectionGraphblas.buildTraj g path).length = path.length := by
  simp [buildTraj_eq]

theorem buildTraj_get (g : GbGraph) (path : List Nat) (k : Nat)
    (hk : k < (IntrospectionGraphblas.buildTraj g path).length) :
    (IntrospectionGraphblas.buildTraj g path).get ⟨k, hk⟩ =
      TrajNode.mk (g.idxTerm (path.get ⟨k, by rwa [buildTraj_length] at hk⟩))
        (((g.tables).term_to_description
            (g.idxTerm (path.get ⟨k, by rwa [buildTraj_length] at hk⟩))).toOption.getD "")
        (k : Int) := by
  have hk2 : k < path.length := by rwa [buildTraj_length] at hk
  rw [List.get_eq_getElem]
  rw [List.getElem_of_eq (buildTraj_eq g path) hk]
  rw [List.getElem_map, List.getElem_enum]
  rfl

theorem trajLoop_sound (g : GbGraph) (tidIdx : Nat) :
    ∀ (fuel : Nat) (queue : List (List Nat)) (acc : List (List TrajNode)),
      (∀ p ∈ queue, goodPath g tidIdx p) →
      (∀ t ∈ acc, ∃ path, finishedPath g tidIdx path ∧
          t = IntrospectionGraphblas.buildTraj g path) →
      ∀ t ∈ IntrospectionGraphblas.trajLoop g fuel queue acc,
        ∃ path, finishedPath g tidIdx path ∧
          t = IntrospectionGraphblas.buildTraj g path := by
  intro fuel
  induction fuel with
  | zero =>
    intro queue acc hq hacc t ht
    exact hacc t (by simpa [IntrospectionGraphblas.trajLoop] using ht)
  | succ n ih =>
    intro queue acc hq hacc t ht
    match queue with
    | [] => exact hacc t (by simpa [IntrospectionGraphblas.trajLoop] using ht)
    | path :: rest =>
      simp only [IntrospectionGraphblas.trajLoop] at ht
      by_cases hcond : g.parentsIdx (path.headD 0) = [] ∨
          path.headD 0 ∈ IntrospectionGraphblas.rootIndices g
      · rw [if_pos hcond] at ht
        refine ih rest _ (fun p hp => hq p (List.mem_cons_of_mem _ hp)) ?_ t ht
        intro t2 ht2
        rcases List.mem_append.mp ht2 with h2 | h2
        · exact hacc t2 h2
        · rw [List.mem_singleton.mp h2]
          exact ⟨path, ⟨hq path (List.mem_cons_self _ _), hcond⟩, rfl⟩
      · rw [if_neg hcond] at ht
        refine ih _ acc ?_ hacc t ht
        intro p hp
        rcases List.mem_append.mp hp with h2 | h2
        · exact hq p (List.mem_cons_of_mem _ h2)
        · rcases List.mem_map.mp h2 with ⟨q, hqmem, rfl⟩
          have hpq := hq path (List.mem_cons_self _ _)
          have hqp : q ∈ g.parentsIdx (path.headD 0) :=
            (List.mem_filter.mp hqmem).1
          refine ⟨List.cons_ne_nil _ _, ?_, ?_⟩
          · intro i hi
            rcases List.mem_cons.mp hi with hi1 | hi2
            · rw [hi1]
              exact ((mem_parentsIdx g _ q).mp hqp).1
            · exact hpq.2.1 i hi2
          · rw [List.getLastD_cons, getLastD_congr path hpq.1 q 0]
            exact hpq.2.2

theorem dfs_sound (g : PGraph) (tid : String) :
    ∀ (fuel : Nat) (cur : PTerm) (d : Int) (path : List TrajNode)
      (visited : List String),
      (path = [] → cur.id = tid) →
      (path ≠ [] → (path.headD ⟨"", "", 0⟩).id = tid) →
      (∀ k, (hk : k < path.length) → (path.get ⟨k, hk⟩).distance = -(k : Int)) →
      d = -(path.length : Int) →
      ∀ t ∈ IntrospectionPronto.dfs g fuel cur d path visited,
        ∃ q : List TrajNode, q ≠ [] ∧ (q.headD ⟨"", "", 0⟩).id = tid ∧
          (∀ k, (hk : k < q.length) → (q.get ⟨k, hk⟩).distance = -(k : Int)) ∧
          ((g.sup1 (q.getLastD ⟨"", "", 0⟩).id).filterMap (pgetTerm g)).filter
            (fun p => p.id ≠ (q.getLastD ⟨"", "", 0⟩).id) = [] ∧
          t = q.reverse := by
  intro fuel
  induction fuel with
  | zero =>
    intro cur d path visited h1 h2 h3 h4 t ht
    simp [IntrospectionPronto.dfs] at ht
  | succ n ih =>
    intro cur d path visited h1 h2 h3 h4 t ht
    rw [IntrospectionPronto.dfs] at ht
    by_cases hvis : cur.id ∈ visited
    · rw [if_pos hvis] at ht
      simp at ht
    · rw [if_neg hvis] at ht
      have hq1 : path ++ [TrajNode.mk cur.id cur.name d] ≠ [] := by simp
      have hq2 : ((path ++ [TrajNode.mk cur.id cur.name d]).headD
          ⟨"", "", 0⟩).id = tid := by
        cases hp : path with
        | nil =>
          simp only [hp, List.nil_append, List.headD]
          exact h1 hp
        | cons a l =>
          rw [headD_append _ _ (by simp [hp]) _]
          exact hp ▸ h2 (by simp [hp])
      have hq3 : ∀ k, (hk : k < (path ++ [TrajNode.mk cur.id cur.name d]).length) →
          ((path ++ [TrajNode.mk cur.id cur.name d]).get ⟨k, hk⟩).distance =
            -(k : Int) := by
        intro k hk
        have hklen : k < path.length + 1 := by simpa using hk
        rcases Nat.lt_or_ge k path.length with hlt | hge
        · rw [List.get_eq_getElem, List.getElem_append_left hlt]
          exact h3 k hlt
        · have hkeq : k = path.length := by omega
          subst hkeq
          rw [List.get_eq_getElem, List.getElem_append_right (Nat.le_refl _)]
          simpa using h4
      by_cases hpar : ((g.sup1 cur.id).filterMap (pgetTerm g)).filter
          (fun p => p.id ≠ cur.id) = []
      · rw [if_pos hpar] at ht
        rcases List.mem_singleton.mp ht with rfl
        refine ⟨path ++ [TrajNode.mk cur.id cur.name d], hq1, hq2, hq3, ?_, rfl⟩
        rw [List.getLastD_concat]
        exact hpar
      · rw [if_neg hpar] at ht
        rcases List.mem_flatMap.mp ht with ⟨p, hp, htp⟩
        refine ih p (d - 1) (path ++ [TrajNode.mk cur.id cur.name d])
          (visited ++ [cur.id]) (fun h => absurd h hq1) (fun _ => hq2) hq3 ?_ t htp
        rw [h4]
        simp
        ring

theorem head_eq_headD {α : Type} (l : List α) (h : l ≠ []) (d : α) :
    l.head h = l.headD d := by
  cases l with
  | nil => exact absurd rfl h
  | cons a t => rfl

theorem getLast_eq_getLastD {α : Type} (l : List α) (h : l ≠ []) (d : α) :
    l.getLast h = l.getLastD d := by
  rw [List.getLastD_eq_getLast? d l, List.getLast?_eq_getLast l h]
  rfl

theorem buildTraj_ne_nil (g : GbGraph) (path : List Nat) (hne : path ≠ []) :
    IntrospectionGraphblas.buildTraj g path ≠ [] := by
  intro h
  apply hne
  have hl := congrArg List.length h
  rw [buildTraj_length] at hl
  exact List.length_eq_zero.mp hl

theorem buildTraj_getLast (g : GbGraph) (path : List Nat) (hne : path ≠ [])
    (hne2 : IntrospectionGraphblas.buildTraj g path ≠ []) :
    ((IntrospectionGraphblas.buildTraj g path).getLast hne2).id =
        g.idxTerm (path.getLastD 0) ∧
      ((IntrospectionGraphblas.buildTraj g path).getLast hne2).distance =
        ((path.length - 1 : Nat) : Int) := by
  have hlen := buildTraj_length g path
  have hplen : 0 < path.length := List.length_pos.mpr hne
  have hkt : (IntrospectionGraphblas.buildTraj g path).length - 1 <
      (IntrospectionGraphblas.buildTraj g path).length := by
    rw [hlen]
    omega
  rw [List.getLast_eq_get _ hne2, buildTraj_get g path _ hkt]
  constructor
  · show g.idxTerm (path.get ⟨(IntrospectionGraphblas.buildTraj g path).length - 1, _⟩) = _
    rw [getLastD_eq_get path hne 0]
    simp only [List.get_eq_getElem, hlen]
  · show (((IntrospectionGraphblas.buildTraj g path).length - 1 : Nat) : Int) = _
    rw [hlen]

theorem buildTraj_head (g : GbGraph) (path : List Nat) (hne : path ≠ [])
    (hne2 : IntrospectionGraphblas.buildTraj g path ≠ []) :
    ((IntrospectionGraphblas.buildTraj g path).head hne2).id =
      g.idxTerm (path.headD 0) := by
  have hlen := buildTraj_length g path
  have h0 : 0 < (IntrospectionGraphblas.buildTraj g path).length :=
    List.length_pos.mpr hne2
  rw [← List.get_mk_zero h0, buildTraj_get g path 0 h0]
  show g.idxTerm (path.get ⟨0, _⟩) = _
  rw [headD_eq_get path hne 0]

/-- C4 amended: in both backends every returned trajectory is ordered
root-first with the queried term last.  The distance annotation differs:
the object-graph backend stamps each node with its signed distance from
the queried term (queried term 0, root most negative), while the matrix
backend stamps each node with its nonnegative offset from the root end
of the path (root 0, queried term `length - 1`) — not with a signed
distance from the queried term. -/
theorem C4_amended_trajectories :
    (∀ (g : PGraph) (tid : String) (trajs : List (List TrajNode)),
        IntrospectionPronto.get_trajectories_from_root g tid = .ok trajs →
          ∀ t ∈ trajs, prontoTrajOk g tid t) ∧
      (∀ (g : GbGraph) (fuel : Nat) (tid : String)
        (trajs : List (List TrajNode)),
        IntrospectionGraphblas.get_trajectories_from_root g fuel tid = .ok trajs →
          ∀ t ∈ trajs, gbTrajOk g tid t) := by
  constructor
  · intro g tid trajs hok t ht
    unfold IntrospectionPronto.get_trajectories_from_root at hok
    cases hterm : pgetTerm g tid with
    | none =>
      rw [hterm] at hok
      cases hok
    | some tm =>
      rw [hterm] at hok
      have htid : tm.id = tid := by simpa using List.find?_some hterm
      have htrajs : trajs = IntrospectionPronto.dfs g (g.terms.length + 2) tm 0 [] [] :=
        (Except.ok.inj hok).symm
      subst htrajs
      rcases dfs_sound g tid _ tm 0 [] [] (fun _ => htid)
          (fun h => absurd rfl h) (fun k hk => absurd hk (by simp)) (by simp)
          t ht with ⟨q, hq1, hq2, hq3, hq4, rfl⟩
      have hne : q.reverse ≠ [] := by simpa using hq1
      refine ⟨hne, ?_, ?_, ?_, ?_⟩
      · intro k hk
        have hkm : k < q.length := by simpa using hk
        rw [List.get_eq_getElem, List.getElem_reverse]
        have hd := hq3 (q.length - 1 - k) (by omega)
        rw [List.get_eq_getElem] at hd
        rw [hd]
        have hlr : (q.reverse.length : Int) = (q.length : Int) := by simp
        simp only [List.length_reverse]
        omega
      · rw [List.getLast_reverse hne, head_eq_headD q hq1 ⟨"", "", 0⟩]
        exact hq2
      · rw [List.getLast_reverse hne, ← List.get_mk_zero (List.length_pos.mpr hq1)]
        exact hq3 0 (List.length_pos.mpr hq1)
      · rw [List.head_reverse hne, getLast_eq_getLastD q hq1 ⟨"", "", 0⟩]
        exact hq4
  · intro g fuel tid trajs hok t ht
    unfold IntrospectionGraphblas.get_trajectories_from_root at hok
    by_cases hknown : g.known tid
    · rw [if_neg (by simp [hknown])] at hok
      have htrajs : trajs = IntrospectionGraphblas.trajLoop g fuel [[g.idxOfD tid]] [] :=
        (Except.ok.inj hok).symm
      subst htrajs
      have htid : tid ∈ g.termIds := (known_iff_mem g tid).mp hknown
      rcases exists_idx_of_mem g tid htid with ⟨idx, hdict, hD, hlt, hterm⟩
      have hinit : ∀ p ∈ [[g.idxOfD tid]], goodPath g idx p := by
        intro p hp
        rw [List.mem_singleton.mp hp]
        refine ⟨by simp, ?_, by simp [hD]⟩
        intro i hi
        rw [List.mem_singleton.mp hi, hD]
        exact hlt
      rcases trajLoop_sound g idx fuel [[g.idxOfD tid]] [] hinit (by simp)
          t ht with ⟨path, ⟨⟨hne, hbound, hlast⟩, hhead⟩, rfl⟩
      have hne2 := buildTraj_ne_nil g path hne
      refine ⟨hne2, ?_, ?_, ?_⟩
      · intro k hk
        rw [buildTraj_get g path k hk]
      · rw [(buildTraj_getLast g path hne hne2).1, hlast, hterm]
      · rw [buildTraj_head g path hne hne2]
        rcases hhead with hpempty | hroot
        · refine List.mem_map.mpr ⟨path.headD 0, List.mem_filter.mpr ⟨?_, ?_⟩, rfl⟩
          · exact List.mem_range.mpr (hbound _ (headD_mem path hne 0))
          · simpa using hpempty
        · rcases List.mem_filterMap.mp hroot with ⟨r, hr, hdr⟩
          rw [show g.idxTerm (path.headD 0) = r from dictIndexOf_getD _ _ _ hdr]
          exact hr
    · rw [if_pos (by simp [hknown])] at hok
      cases hok

/-- C4 as stated is false: on the example ontology the matrix backend
annotates the trajectory for `A` with distance 0 at the ROOT and
distance 1 at the queried term — the queried term does not carry 0 and
the ancestors carry nonnegative, not negative, distances. -/
theorem C4_counterexample :
    IntrospectionGraphblas.get_trajectories_from_root gbEx 32 "A" =
      .ok [[⟨"Z", "rootZ", 0⟩, ⟨"A", "termA", 1⟩]] ∧
      (TrajNode.mk "A" "termA" 1).distance ≠ 0 := by
  constructor
  · decide
  · decide

/-- Witness for C4 on the example ontology: the pronto trajectory for
`D` is root-first with signed distances ending in 0, the matrix-backend
trajectory is root-first with distances 0, 1, 2 from the root. -/
theorem C4_witness :
    IntrospectionPronto.get_trajectories_from_root pgEx "D" =
        .ok [[⟨"Z", "rootZ", -2⟩, ⟨"A", "termA", -1⟩, ⟨"D", "termD", 0⟩]] ∧
      prontoTrajOk pgEx "D"
        [⟨"Z", "rootZ", -2⟩, ⟨"A", "termA", -1⟩, ⟨"D", "termD", 0⟩] ∧
      IntrospectionGraphblas.get_trajectories_from_root gbEx 32 "D" =
        .ok [[⟨"Z", "rootZ", 0⟩, ⟨"A", "termA", 1⟩, ⟨"D", "termD", 2⟩]] ∧
      gbTrajOk gbEx "D"
        [⟨"Z", "rootZ", 0⟩, ⟨"A", "termA", 1⟩, ⟨"D", "termD", 2⟩] := by
  refine ⟨by decide, ?_, by decide, ?_⟩
  · exact C4_amended_trajectories.1 pgEx "D"
      [[⟨"Z", "rootZ", -2⟩, ⟨"A", "termA", -1⟩, ⟨"D", "termD", 0⟩]] (by decide)
      [⟨"Z", "rootZ", -2⟩, ⟨"A", "termA", -1⟩, ⟨"D", "termD", 0⟩] (by decide)
  · exact C4_amended_trajectories.2 gbEx 32 "D"
      [[⟨"Z", "rootZ", 0⟩, ⟨"A", "termA", 1⟩, ⟨"D", "termD", 2⟩]] (by decide)
      [⟨"Z", "rootZ", 0⟩, ⟨"A", "termA", 1⟩, ⟨"D", "termD", 2⟩] (by decide)
